import Mathlib

/-!
# Verification of the reviewapp bounding-box annotation and diff engine

Shallow embedding of the core of the `reviewapp` repository:

* the line-based LCS diff (`computeDiff` / `computeLCS` in
  `src/components/FileDiff.tsx`),
* the bounding-box geometry, hit-testing and resize gesture logic
  (`ImageViewer`: `getHandleAtPosition`, `getChangeAtPosition`,
  `handleMouseMove` / `handleMouseUp`),
* the change import/export transforms (`rawChangeToChange`,
  `changeToRawChange` in `src/types/change.ts`),
* upload validation (`validateBoundingBox` in `src/lib/validation.ts`),
* the undo stack, delete, zoom and pending-edit handlers of
  `src/app/page.tsx`.

Conventions of the embedding:

* JavaScript strings are modelled as `List Char`; text blobs are split on
  the newline character exactly as `String.prototype.split('\n')` does.
* JavaScript numbers are modelled as `ℚ` (all constants appearing in the
  verified properties — 0.2, 0.1, 0.8, 4, 10, 12 — and the comparisons
  against them are exact in both ℚ and binary floating point).
* A JavaScript array read `a[i]` that can be out of bounds is modelled as
  `List.get?`, so `undefined` becomes `none`.
* Stateful React handlers become pure state-transition functions on
  explicit state records.
-/

namespace ReviewApp

/-! ## Text model: splitting on and joining with newline

`oldText.split('\n')` and `lines.join('\n')` from `FileDiff.tsx`,
on `List Char` text. `split` always returns at least one (possibly empty)
line, exactly like the JavaScript method. -/

/-- A line of text (a JavaScript string). -/
abbrev Line := List Char

/-- `text.split('\n')`: split a character list at every newline.
`splitOnNl [] = [[]]`, matching `''.split('\n') = ['']`. -/
def splitOnNl : List Char → List Line
  | [] => [[]]
  | c :: rest =>
    if c = '\n' then [] :: splitOnNl rest
    else
      match splitOnNl rest with
      | [] => [[c]]
      | l :: ls => (c :: l) :: ls

/-- `lines.join('\n')`: interleave a newline between consecutive lines. -/
def joinNl : List Line → List Char
  | [] => []
  | [l] => l
  | l :: ls => l ++ '\n' :: joinNl ls

/-! ## Diff engine (`src/components/FileDiff.tsx`)

`computeLCS` builds the classic LCS dynamic-programming table and
backtracks through it; `computeDiff` walks the two line arrays and the
LCS in lockstep. The walk is embedded with an explicit fuel counter
(one unit per executed `while` iteration); running out of fuel models
non-termination of the JavaScript loop and returns `none`. -/

/-- The DP table of `computeLCS`: `lcsDp a b i j` is `dp[i][j]`, the value
the nested fill loops store for the prefixes `a[0..i)` and `b[0..j)`. -/
def lcsDp (a b : List Line) : Nat → Nat → Nat
  | 0, _ => 0
  | _ + 1, 0 => 0
  | i + 1, j + 1 =>
    if a.get? i = b.get? j then lcsDp a b i j + 1
    else max (lcsDp a b i (j + 1)) (lcsDp a b (i + 1) j)
  termination_by i j => (i, j)

/-- The backtracking phase of `computeLCS`, building the LCS front-to-back
(the JavaScript `unshift` onto the result while `i`, `j` walk down).
`(a.get? i).toList` appends the matched element; for the calls reachable
from `computeLCS` the index is always in bounds, so this is `[a[i]]`. -/
def lcsBacktrack (a b : List Line) : Nat → Nat → List Line
  | 0, _ => []
  | _ + 1, 0 => []
  | i + 1, j + 1 =>
    if a.get? i = b.get? j then
      lcsBacktrack a b i j ++ (a.get? i).toList
    else if lcsDp a b i (j + 1) > lcsDp a b (i + 1) j then
      lcsBacktrack a b i (j + 1)
    else
      lcsBacktrack a b (i + 1) j
  termination_by i j => (i, j)

/-- `computeLCS(a, b)` from `FileDiff.tsx`. -/
def computeLCS (a b : List Line) : List Line :=
  lcsBacktrack a b a.length b.length

/-- The `type` field of a `DiffLine`. -/
inductive DType where
  | unchanged
  | added
  | removed
deriving DecidableEq

/-- One line of diff output. `content` is an `Option` because the
JavaScript code reads `newLines[newIdx]` in a branch that does not
re-check the bound, so the faithful embedding allows an `undefined`
(= `none`) read there. -/
structure DiffLine where
  dtype : DType
  content : Option Line
  oldLineNum : Option Nat
  newLineNum : Option Nat
deriving DecidableEq

/-- The lockstep `while` loop of `computeDiff`. `fuel` bounds the number
of iterations; the loop itself exits as soon as both cursors are past
their arrays. The unreachable final `else` (no branch of the JavaScript
`if`/`else if` chain fires, so the loop would spin forever) also just
burns fuel. -/
def diffLoop (oldL newL lcs : List Line) :
    Nat → Nat → Nat → Nat → Option (List DiffLine)
  | 0, oldIdx, newIdx, _ =>
    if oldIdx < oldL.length ∨ newIdx < newL.length then none else some []
  | fuel + 1, oldIdx, newIdx, lcsIdx =>
    if oldIdx < oldL.length ∨ newIdx < newL.length then
      if lcsIdx < lcs.length ∧ oldIdx < oldL.length ∧
            oldL.get? oldIdx = lcs.get? lcsIdx then
          if newIdx < newL.length ∧ newL.get? newIdx = lcs.get? lcsIdx then
            (diffLoop oldL newL lcs fuel (oldIdx + 1) (newIdx + 1) (lcsIdx + 1)).map
              (⟨.unchanged, oldL.get? oldIdx, some (oldIdx + 1), some (newIdx + 1)⟩ :: ·)
          else
            (diffLoop oldL newL lcs fuel oldIdx (newIdx + 1) lcsIdx).map
              (⟨.added, newL.get? newIdx, none, some (newIdx + 1)⟩ :: ·)
        else if oldIdx < oldL.length ∧
            (¬ lcsIdx < lcs.length ∨ oldL.get? oldIdx ≠ lcs.get? lcsIdx) then
          (diffLoop oldL newL lcs fuel (oldIdx + 1) newIdx lcsIdx).map
            (⟨.removed, oldL.get? oldIdx, some (oldIdx + 1), none⟩ :: ·)
        else if newIdx < newL.length then
          (diffLoop oldL newL lcs fuel oldIdx (newIdx + 1) lcsIdx).map
            (⟨.added, newL.get? newIdx, none, some (newIdx + 1)⟩ :: ·)
        else
          diffLoop oldL newL lcs fuel oldIdx newIdx lcsIdx
    else
      some []

/-- `computeDiff(oldText, newText)`: split both texts on newlines, compute
the LCS, then run the lockstep walk. The fuel `m + n` is exactly the
number of iterations the loop needs when it terminates. -/
def computeDiff (oldText newText : List Char) : Option (List DiffLine) :=
  let oldL := splitOnNl oldText
  let newL := splitOnNl newText
  diffLoop oldL newL (computeLCS oldL newL) (oldL.length + newL.length) 0 0 0

/-! ## Data model (`src/types/change.ts`)

JavaScript numbers are modelled as `ℚ`. The TypeScript string-literal
union types `ActionType` and `DirectionType` become inductives with their
canonical string images; `null` becomes `none`. -/

/-- `BoundingBox` from `types/change.ts`. -/
structure BoundingBox where
  xmin : ℚ
  ymin : ℚ
  xmax : ℚ
  ymax : ℚ
deriving DecidableEq

/-- The `ActionType` string-literal union. -/
inductive ActionType where
  | add
  | remove
  | move
  | dimensionChange
  | other
deriving DecidableEq

/-- The literal string of each `ActionType` member. -/
def actionToString : ActionType → String
  | .add => "Add"
  | .remove => "Remove"
  | .move => "Move"
  | .dimensionChange => "Dimension Change"
  | .other => "Other"

/-- The non-`null` members of the `DirectionType` union. -/
inductive Direction where
  | up
  | down
  | left
  | right
deriving DecidableEq

/-- The literal string of each `Direction` member. -/
def directionToString : Direction → String
  | .up => "Up"
  | .down => "Down"
  | .left => "Left"
  | .right => "Right"

/-- `ACTION_TYPES.includes(s) ? (s as ActionType) : 'Other'` from
`rawChangeToChange`, written as the equivalent exhaustive comparison
against the five members of `ACTION_TYPES`. -/
def parseAction (s : String) : ActionType :=
  if s = "Add" then .add
  else if s = "Remove" then .remove
  else if s = "Move" then .move
  else if s = "Dimension Change" then .dimensionChange
  else .other

/-- `DIRECTION_TYPES.includes(d) ? (d as DirectionType) : null` from
`rawChangeToChange` (`DIRECTION_TYPES` is `[null,'Up','Down','Left','Right']`,
so a `null` input stays `null` and unrecognized strings coerce to `null`). -/
def parseDirection : Option String → Option Direction
  | none => none
  | some s =>
    if s = "Up" then some .up
    else if s = "Down" then some .down
    else if s = "Left" then some .left
    else if s = "Right" then some .right
    else none

/-- `Change` from `types/change.ts`. -/
structure Change where
  id : String
  action : ActionType
  elements : List String
  direction : Option Direction
  fromValue : Option String
  toValue : Option String
  description : Option String
  location : BoundingBox
  approved : Bool
deriving DecidableEq

/-- `RawChange` from `types/change.ts` (the import/export wire record,
which has no `id` and no `approved` field). The `unknown`-typed `value`,
`fromValue` and `toValue` fields are modelled at the values the exporter
actually produces, `string | null`; `String(x)` on such a value is the
identity on strings. `undefined` and `null` both map to `none` (the code
only distinguishes them through `!= null` and `?? null`, which treat them
alike). -/
structure RawChange where
  action : String
  elements : List String
  direction : Option String
  value : Option String
  fromValue : Option String
  toValue : Option String
  description : Option String
  location : BoundingBox
deriving DecidableEq

/-- `rawChangeToChange` from `types/change.ts`. The fresh id produced by
`generateId()` (`crypto.randomUUID`) is passed in as a parameter. -/
def rawChangeToChange (raw : RawChange) (freshId : String) : Change where
  id := freshId
  action := parseAction raw.action
  elements := raw.elements
  direction := parseDirection raw.direction
  fromValue :=
    match raw.fromValue with
    | some v => some v
    | none => raw.value
  toValue := raw.toValue
  description := raw.description
  location := raw.location
  approved := false

/-- `changeToRawChange` from `types/change.ts`. -/
def changeToRawChange (c : Change) : RawChange where
  action := actionToString c.action
  elements := c.elements
  direction := c.direction.map directionToString
  value := c.fromValue
  fromValue := c.fromValue
  toValue := c.toValue
  description := c.description
  location := c.location

/-- `validateBoundingBox` from `src/lib/validation.ts`, restricted to a
well-typed box (the `typeof` checks always pass): the `valid` flag is true
iff all four coordinates are non-negative, `xmax > xmin` and `ymax > ymin`. -/
def validateBoundingBox (b : BoundingBox) : Bool :=
  decide (0 ≤ b.xmin) && decide (0 ≤ b.ymin) &&
  decide (0 ≤ b.xmax) && decide (0 ≤ b.ymax) &&
  decide (b.xmin < b.xmax) && decide (b.ymin < b.ymax)

/-! ## Hit-testing and gestures (`ImageViewer`, `src/unnamed/part_005`)

`scale` is the component's `zoomLevel`. Pointer positions handed to the
hit-testing functions are image-space coordinates (the component converts
screen coordinates through `getImageCoordinates` first). -/

/-- The eight resize handles plus `move`; the JavaScript `null` member of
`ResizeHandle` is `Option.none`. -/
inductive Handle where
  | nw | n | ne | e | se | s | sw | w | move
deriving DecidableEq

/-- `HANDLE_HIT_AREA` from `ImageViewer`. -/
def HANDLE_HIT_AREA : ℚ := 12

/-- `getHandleAtPosition(x, y, box)` from `ImageViewer`: hit tolerance is
`HANDLE_HIT_AREA / scale` in image space, corners take priority over
edges, the interior maps to `move`, anything else to `null`. -/
def getHandleAtPosition (x y : ℚ) (box : BoundingBox) (scale : ℚ) :
    Option Handle :=
  let hitArea := HANDLE_HIT_AREA / scale
  let nearLeft := |x - box.xmin| < hitArea
  let nearRight := |x - box.xmax| < hitArea
  let nearTop := |y - box.ymin| < hitArea
  let nearBottom := |y - box.ymax| < hitArea
  let inHorizontalRange := box.xmin - hitArea ≤ x ∧ x ≤ box.xmax + hitArea
  let inVerticalRange := box.ymin - hitArea ≤ y ∧ y ≤ box.ymax + hitArea
  if nearLeft ∧ nearTop then some .nw
  else if nearRight ∧ nearTop then some .ne
  else if nearLeft ∧ nearBottom then some .sw
  else if nearRight ∧ nearBottom then some .se
  else if nearTop ∧ inHorizontalRange then some .n
  else if nearBottom ∧ inHorizontalRange then some .s
  else if nearLeft ∧ inVerticalRange then some .w
  else if nearRight ∧ inVerticalRange then some .e
  else if box.xmin < x ∧ x < box.xmax ∧ box.ymin < y ∧ y < box.ymax then some .move
  else none

/-- Membership test of `getChangeAtPosition`: the point lies inside the
closed box. -/
def pointInBox (b : BoundingBox) (x y : ℚ) : Bool :=
  decide (b.xmin ≤ x) && decide (x ≤ b.xmax) &&
  decide (b.ymin ≤ y) && decide (y ≤ b.ymax)

/-- `getChangeAtPosition(x, y)` from `ImageViewer`: scan the change list
in reverse order (topmost, i.e. last drawn, first) for a box containing
the point. Does not depend on the zoom level. -/
def getChangeAtPosition (changes : List Change) (x y : ℚ) : Option Change :=
  changes.reverse.find? (fun c => pointInBox c.location x y)

/-- `getImageCoordinates` from `ImageViewer`: convert client (screen)
coordinates to image space by subtracting the canvas origin, dividing by
the scale and rounding (`Math.round` is `round` on ℚ: half-up). -/
def getImageCoordinates (clientX clientY rectLeft rectTop scale : ℚ) :
    ℤ × ℤ :=
  (round ((clientX - rectLeft) / scale), round ((clientY - rectTop) / scale))

/-- The box-hit component of hit-testing as exercised at a given zoom:
the screen position of the fixed image-space point `(px, py)` is converted
back through `getImageCoordinates` and then looked up with
`getChangeAtPosition`. -/
def changeAtZoom (changes : List Change) (rectLeft rectTop : ℚ)
    (px py : ℤ) (z : ℚ) : Option Change :=
  let c := getImageCoordinates (rectLeft + px * z) (rectTop + py * z)
    rectLeft rectTop z
  getChangeAtPosition changes (c.1 : ℚ) (c.2 : ℚ)

/-- The candidate-box computation of `handleMouseMove` while a resize or
move gesture is active: the `switch (handle)` statement, handle by handle.
`coords` is the current pointer position in image space, `startCoords` the
pointer position recorded at `mousedown`. -/
def computeResizeBox (handle : Handle) (originalBox : BoundingBox)
    (startCoords coords : ℚ × ℚ) : BoundingBox :=
  match handle with
  | .nw => { originalBox with
      xmin := min coords.1 (originalBox.xmax - 10),
      ymin := min coords.2 (originalBox.ymax - 10) }
  | .n => { originalBox with
      ymin := min coords.2 (originalBox.ymax - 10) }
  | .ne => { originalBox with
      xmax := max coords.1 (originalBox.xmin + 10),
      ymin := min coords.2 (originalBox.ymax - 10) }
  | .e => { originalBox with
      xmax := max coords.1 (originalBox.xmin + 10) }
  | .se => { originalBox with
      xmax := max coords.1 (originalBox.xmin + 10),
      ymax := max coords.2 (originalBox.ymin + 10) }
  | .s => { originalBox with
      ymax := max coords.2 (originalBox.ymin + 10) }
  | .sw => { originalBox with
      xmin := min coords.1 (originalBox.xmax - 10),
      ymax := max coords.2 (originalBox.ymin + 10) }
  | .w => { originalBox with
      xmin := min coords.1 (originalBox.xmax - 10) }
  | .move =>
    { xmin := originalBox.xmin + (coords.1 - startCoords.1),
      xmax := originalBox.xmax + (coords.1 - startCoords.1),
      ymin := originalBox.ymin + (coords.2 - startCoords.2),
      ymax := originalBox.ymax + (coords.2 - startCoords.2) }

/-- The location update performed when `handleMouseUp` (or
`handleMouseLeave`) commits a resize: `handleChangeLocationUpdate` in
`page.tsx` maps the page's change list, replacing the location of the
change with the given id. -/
def commitResize (changes : List Change) (changeId : String)
    (newLocation : BoundingBox) : List Change :=
  changes.map (fun c =>
    if c.id == changeId then { c with location := newLocation } else c)

/-- The box normalisation at the end of a draw gesture in `handleMouseUp`:
min/max of the anchor and release points. -/
def drawCompleteBox (start cur : ℚ × ℚ) : BoundingBox where
  xmin := min start.1 cur.1
  ymin := min start.2 cur.2
  xmax := max start.1 cur.1
  ymax := max start.2 cur.2

/-- The draw-completion decision of `handleMouseUp`: `onDrawComplete` is
invoked with the normalised box only when both dimensions are at least 10;
otherwise the gesture ends with no event (`none`). -/
def handleMouseUpDraw (start cur : ℚ × ℚ) : Option BoundingBox :=
  let box := drawCompleteBox start cur
  if 10 ≤ box.xmax - box.xmin ∧ 10 ≤ box.ymax - box.ymin then some box
  else none

/-! ## Zoom operations (`page.tsx` and the pinch handler of `ImageViewer`) -/

/-- `handleZoomIn` (also the Ctrl/Cmd `+` shortcut). -/
def zoomIn (z : ℚ) : ℚ := min (z + 1/10) 4

/-- `handleZoomOut` (also the Ctrl/Cmd `-` shortcut). -/
def zoomOut (z : ℚ) : ℚ := max (z - 1/10) (1/5)

/-- `handleTouchMove` pinch-to-zoom: clamp `zoomLevel + delta` to
`[0.2, 4]`. -/
def pinchZoom (z delta : ℚ) : ℚ := min 4 (max (1/5) (z + delta))

/-- The zoom chosen by `handleCenter` ("center on change"):
`Math.min(containerWidth*0.8/boxWidth, containerHeight*0.8/boxHeight, 1)`. -/
def centerZoom (containerWidth containerHeight : ℚ) (box : BoundingBox) : ℚ :=
  min (min (containerWidth * (8/10) / (box.xmax - box.xmin))
    (containerHeight * (8/10) / (box.ymax - box.ymin))) 1

/-! ## Pending edits (`handleApplyEdit` / `handleRejectEdit`, `page.tsx`)

`projectContext` is modelled as its `files` list (`prev?.files || []`
makes the missing-context case behave as the empty list); `loadedAt` is
irrelevant to these handlers. -/

/-- The `type` field of a `PendingEdit`. -/
inductive EditType where
  | update
  | create
  | edit
deriving DecidableEq

/-- The `status` field of a `PendingEdit`. -/
inductive EditStatus where
  | pending
  | applied
  | rejected
deriving DecidableEq

/-- `PendingEdit` from `types/artifact.ts` (the fields `handleApplyEdit`
and `handleRejectEdit` read). -/
structure PendingEdit where
  id : String
  type : EditType
  filename : String
  newContent : String
  oldContent : Option String
  status : EditStatus
deriving DecidableEq

/-- `ContextFile` from `types/context.ts`. -/
structure ContextFile where
  name : String
  content : String
deriving DecidableEq

/-- The state the two handlers operate on: the project-context files and
the pending-edit list. -/
structure ArtifactState where
  files : List ContextFile
  pendingEdits : List PendingEdit
deriving DecidableEq

/-- `handleApplyEdit(editId)` from `page.tsx`: find the edit by id (any
status); `create` appends a new file, otherwise every file with the edit's
filename gets the new content; finally the edit's status is set to
`applied`. -/
def handleApplyEdit (st : ArtifactState) (editId : String) : ArtifactState :=
  match st.pendingEdits.find? (fun e => e.id == editId) with
  | none => st
  | some edit =>
    { files :=
        if edit.type = .create then
          st.files ++ [⟨edit.filename, edit.newContent⟩]
        else
          st.files.map (fun f =>
            if f.name == edit.filename then { f with content := edit.newContent }
            else f),
      pendingEdits :=
        st.pendingEdits.map (fun e =>
          if e.id == editId then { e with status := .applied } else e) }

/-- `handleRejectEdit(editId)` from `page.tsx`: set the edit's status to
`rejected`; files untouched. -/
def handleRejectEdit (st : ArtifactState) (editId : String) : ArtifactState :=
  { st with
    pendingEdits :=
      st.pendingEdits.map (fun e =>
        if e.id == editId then { e with status := .rejected } else e) }

/-! ## Pages, deletion and the undo stack (`page.tsx`, `usePages.ts`) -/

/-- A page restricted to the fields the undo machinery touches. -/
structure PageSt where
  id : String
  changes : List Change
deriving DecidableEq

/-- An undo snapshot: `{pageId, changes}`. -/
structure Snapshot where
  pageId : String
  changes : List Change
deriving DecidableEq

/-- The joint state of `usePages().pages` and the `undoStack` of
`page.tsx`. -/
structure EditorState where
  pages : List PageSt
  undoStack : List Snapshot
deriving DecidableEq

/-- `updatePageChanges(pageId, changes)` from `usePages.ts`. -/
def updatePageChanges (pages : List PageSt) (pageId : String)
    (changes : List Change) : List PageSt :=
  pages.map (fun p => if p.id == pageId then { p with changes := changes } else p)

/-- `setUndoStack((prev) => [...prev.slice(-19), snap])`: keep the last 19
snapshots and append, capping the stack at 20. -/
def pushUndo (s : List Snapshot) (snap : Snapshot) : List Snapshot :=
  s.drop (s.length - 19) ++ [snap]

/-- `find?`-based current-page lookup (`pages.find` by id). -/
def findPage (pages : List PageSt) (pageId : String) : Option PageSt :=
  pages.find? (fun p => p.id == pageId)

/-- `handleChangeLocationUpdate` from `page.tsx` (a resize/move commit
reaching the store): snapshot the current page's change list onto the undo
stack, then replace the location of the targeted change. -/
def opResizeCommit (st : EditorState) (pageId changeId : String)
    (newLocation : BoundingBox) : EditorState :=
  match findPage st.pages pageId with
  | none => st
  | some page =>
    { pages := updatePageChanges st.pages pageId
        (commitResize page.changes changeId newLocation),
      undoStack := pushUndo st.undoStack ⟨pageId, page.changes⟩ }

/-- The `'D'` keyboard shortcut in `page.tsx`: push an undo snapshot, then
delete the hovered change from the current page. -/
def opDeleteKey (st : EditorState) (pageId changeId : String) : EditorState :=
  match findPage st.pages pageId with
  | none => st
  | some page =>
    { pages := updatePageChanges st.pages pageId
        (page.changes.filter (fun c => !(c.id == changeId))),
      undoStack := pushUndo st.undoStack ⟨pageId, page.changes⟩ }

/-- `handleDelete` from `page.tsx` (the change-list delete button): remove
the change from the current page. It pushes no undo snapshot. -/
def opDeleteBtn (st : EditorState) (pageId changeId : String) : EditorState :=
  match findPage st.pages pageId with
  | none => st
  | some page =>
    { pages := updatePageChanges st.pages pageId
        (page.changes.filter (fun c => !(c.id == changeId))),
      undoStack := st.undoStack }

/-- `handleUndo` from `page.tsx`: with an empty stack do nothing; else pop
the most recent snapshot and restore that page's change list from it. -/
def opUndo (st : EditorState) : EditorState :=
  match st.undoStack.getLast? with
  | none => st
  | some lastState =>
    { pages := updatePageChanges st.pages lastState.pageId lastState.changes,
      undoStack := st.undoStack.dropLast }

/-- One snapshotting destructive operation: a resize/move commit or a
keyboard (`'D'`) delete. -/
inductive SnapOp where
  | resize (pageId changeId : String) (newLocation : BoundingBox)
  | deleteKey (pageId changeId : String)
deriving DecidableEq

/-- The page a `SnapOp` targets. -/
def SnapOp.pageId : SnapOp → String
  | .resize p _ _ => p
  | .deleteKey p _ => p

/-- Run one `SnapOp`. -/
def applySnapOp (st : EditorState) : SnapOp → EditorState
  | .resize p c loc => opResizeCommit st p c loc
  | .deleteKey p c => opDeleteKey st p c

/-- Run a list of `SnapOp`s left to right. -/
def applySnapOps (st : EditorState) : List SnapOp → EditorState
  | [] => st
  | op :: ops => applySnapOps (applySnapOp st op) ops

/-! ## Theorems -/

theorem splitOnNl_ne_nil (t : List Char) : splitOnNl t ≠ [] := by
  cases t with
  | nil => simp [splitOnNl]
  | cons c rest =>
    simp only [splitOnNl]
    split
    · simp
    · cases h : splitOnNl rest <;> simp

theorem joinNl_cons_of_ne_nil (l : Line) (ls : List Line) (h : ls ≠ []) :
    joinNl (l :: ls) = l ++ '\n' :: joinNl ls := by
  cases ls with
  | nil => exact absurd rfl h
  | cons a as => rfl

/-- Splitting on newlines and joining back with newlines is the identity:
`text.split('\n').join('\n') = text`. -/
theorem joinNl_splitOnNl (t : List Char) : joinNl (splitOnNl t) = t := by
  induction t with
  | nil => rfl
  | cons c rest ih =>
    simp only [splitOnNl]
    split
    · rename_i hc
      rw [joinNl_cons_of_ne_nil _ _ (splitOnNl_ne_nil rest), ih]
      simp [hc]
    · rcases h : splitOnNl rest with _ | ⟨l, ls⟩
      · exact absurd h (splitOnNl_ne_nil rest)
      · rw [h] at ih
        cases ls with
        | nil => simpa [joinNl] using congrArg (c :: ·) ih
        | cons a as =>
          rw [joinNl_cons_of_ne_nil l (a :: as) (by simp)] at ih
          rw [joinNl_cons_of_ne_nil (c :: l) (a :: as) (by simp)]
          simpa using congrArg (c :: ·) ih

/-- The backtracking phase always returns a common subsequence of the two
prefixes it still has in front of it, whatever the DP table says. -/
theorem lcsBacktrack_sublist (a b : List Line) :
    ∀ n i j, i + j ≤ n →
      List.Sublist (lcsBacktrack a b i j) (a.take i) ∧ List.Sublist (lcsBacktrack a b i j) (b.take j) := by
  intro n
  induction n with
  | zero =>
    intro i j h
    obtain ⟨rfl, rfl⟩ : i = 0 ∧ j = 0 := by omega
    simp [lcsBacktrack]
  | succ n ih =>
    intro i j h
    match i, j with
    | 0, j => simp [lcsBacktrack]
    | i + 1, 0 => simp [lcsBacktrack]
    | i + 1, j + 1 =>
      rw [lcsBacktrack]
      have hij : i + j ≤ n := by omega
      have hij1 : i + (j + 1) ≤ n := by omega
      have hij2 : (i + 1) + j ≤ n := by omega
      split
      · rename_i heq
        obtain ⟨h1, h2⟩ := ih i j hij
        simp only [List.get?_eq_getElem?] at heq ⊢
        constructor
        · rw [List.take_succ]
          exact List.Sublist.append h1 (List.Sublist.refl _)
        · rw [List.take_succ, ← heq]
          exact List.Sublist.append h2 (List.Sublist.refl _)
      · split
        · obtain ⟨h1, h2⟩ := ih i (j + 1) hij1
          exact ⟨h1.trans (by rw [List.take_succ]; exact List.sublist_append_left _ _), h2⟩
        · obtain ⟨h1, h2⟩ := ih (i + 1) j hij2
          exact ⟨h1, h2.trans (by rw [List.take_succ]; exact List.sublist_append_left _ _)⟩

/-- `computeLCS a b` is a common subsequence of `a` and `b`. -/
theorem computeLCS_sublist (a b : List Line) :
    List.Sublist (computeLCS a b) a ∧ List.Sublist (computeLCS a b) b := by
  have h := lcsBacktrack_sublist a b (a.length + b.length) a.length b.length le_rfl
  simpa [computeLCS, List.take_length] using h

theorem sublist_cons_of_head_ne {x y : Line} {s t : List Line}
    (h : List.Sublist (x :: s) (y :: t)) (hne : x ≠ y) :
    List.Sublist (x :: s) t := by
  cases h with
  | cons _ h => exact h
  | cons₂ => exact absurd rfl hne

theorem get?_eq_some_getElem {l : List Line} {i : Nat} (h : i < l.length) :
    l.get? i = some l[i] := by
  rw [List.get?_eq_getElem?, List.getElem?_eq_getElem h]

/-- Main invariant of the lockstep walk: as long as the not-yet-consumed
part of the LCS is a common subsequence of the not-yet-consumed suffixes
of the two line arrays and the fuel covers the remaining distance, the
loop terminates, the lines it emits that are not `removed` are exactly
the remaining new lines, and the lines that are not `added` are exactly
the remaining old lines. -/
theorem diffLoop_spec (oldL newL lcs : List Line) :
    ∀ (fuel oldIdx newIdx lcsIdx : Nat),
      (oldL.length - oldIdx) + (newL.length - newIdx) ≤ fuel →
      List.Sublist (lcs.drop lcsIdx) (oldL.drop oldIdx) →
      List.Sublist (lcs.drop lcsIdx) (newL.drop newIdx) →
      ∃ res, diffLoop oldL newL lcs fuel oldIdx newIdx lcsIdx = some res ∧
        (res.filter (fun l => l.dtype ≠ DType.removed)).map (·.content)
          = (newL.drop newIdx).map some ∧
        (res.filter (fun l => l.dtype ≠ DType.added)).map (·.content)
          = (oldL.drop oldIdx).map some := by
  intro fuel
  induction fuel with
  | zero =>
    intro oldIdx newIdx lcsIdx hfuel _ _
    refine ⟨[], ?_, ?_, ?_⟩
    · rw [diffLoop, if_neg (by omega)]
    · simp [List.drop_eq_nil_of_le (show newL.length ≤ newIdx by omega)]
    · simp [List.drop_eq_nil_of_le (show oldL.length ≤ oldIdx by omega)]
  | succ fuel ih =>
    intro oldIdx newIdx lcsIdx hfuel hsubOld hsubNew
    by_cases hloop : oldIdx < oldL.length ∨ newIdx < newL.length
    case neg =>
      refine ⟨[], ?_, ?_, ?_⟩
      · rw [diffLoop, if_neg hloop]
      · simp [List.drop_eq_nil_of_le (show newL.length ≤ newIdx by omega)]
      · simp [List.drop_eq_nil_of_le (show oldL.length ≤ oldIdx by omega)]
    case pos =>
    rw [diffLoop, if_pos hloop]
    by_cases hb1 : lcsIdx < lcs.length ∧ oldIdx < oldL.length ∧
        oldL.get? oldIdx = lcs.get? lcsIdx
    · rw [if_pos hb1]
      obtain ⟨hlcs, hold, heqO⟩ := hb1
      have hdO := List.drop_eq_getElem_cons hold
      have hdL := List.drop_eq_getElem_cons hlcs
      have e1 : oldL[oldIdx] = lcs[lcsIdx] := by
        have := heqO
        rw [get?_eq_some_getElem hold, get?_eq_some_getElem hlcs] at this
        exact Option.some.inj this
      by_cases hb1' : newIdx < newL.length ∧ newL.get? newIdx = lcs.get? lcsIdx
      · -- unchanged line
        rw [if_pos hb1']
        obtain ⟨hnew, heqN⟩ := hb1'
        have hdN := List.drop_eq_getElem_cons hnew
        have e2 : newL[newIdx] = lcs[lcsIdx] := by
          have := heqN
          rw [get?_eq_some_getElem hnew, get?_eq_some_getElem hlcs] at this
          exact Option.some.inj this
        have hso : List.Sublist (lcs.drop (lcsIdx + 1)) (oldL.drop (oldIdx + 1)) := by
          rw [hdO, hdL, e1] at hsubOld
          exact List.cons_sublist_cons.mp hsubOld
        have hsn : List.Sublist (lcs.drop (lcsIdx + 1)) (newL.drop (newIdx + 1)) := by
          rw [hdN, hdL, e2] at hsubNew
          exact List.cons_sublist_cons.mp hsubNew
        obtain ⟨res, hres, hmapN, hmapO⟩ :=
          ih (oldIdx + 1) (newIdx + 1) (lcsIdx + 1) (by omega) hso hsn
        refine ⟨⟨.unchanged, oldL.get? oldIdx, some (oldIdx + 1), some (newIdx + 1)⟩ :: res,
          by rw [hres]; rfl, ?_, ?_⟩
        · rw [List.filter_cons_of_pos rfl, List.map_cons, hmapN, hdN,
            List.map_cons, get?_eq_some_getElem hold, e1, e2]
        · rw [List.filter_cons_of_pos rfl, List.map_cons, hmapO, hdO,
            List.map_cons, get?_eq_some_getElem hold]
      · -- added line (old cursor sits on the next LCS element, new does not)
        rw [if_neg hb1']
        have hnew : newIdx < newL.length := by
          by_contra h
          rw [List.drop_eq_nil_of_le (show newL.length ≤ newIdx by omega),
            hdL] at hsubNew
          exact absurd (List.sublist_nil.mp hsubNew) (List.cons_ne_nil _ _)
        have hdN := List.drop_eq_getElem_cons hnew
        have e2 : lcs[lcsIdx] ≠ newL[newIdx] := by
          intro h
          exact hb1' ⟨hnew, by
            rw [get?_eq_some_getElem hnew, get?_eq_some_getElem hlcs, h]⟩
        have hsn : List.Sublist (lcs.drop lcsIdx) (newL.drop (newIdx + 1)) := by
          rw [hdL]
          rw [hdL, hdN] at hsubNew
          exact sublist_cons_of_head_ne hsubNew e2
        obtain ⟨res, hres, hmapN, hmapO⟩ :=
          ih oldIdx (newIdx + 1) lcsIdx (by omega) hsubOld hsn
        refine ⟨⟨.added, newL.get? newIdx, none, some (newIdx + 1)⟩ :: res,
          by rw [hres]; rfl, ?_, ?_⟩
        · rw [List.filter_cons_of_pos rfl, List.map_cons, hmapN, hdN,
            List.map_cons, get?_eq_some_getElem hnew]
        · rw [List.filter_cons_of_neg (by simp)]
          exact hmapO
    · rw [if_neg hb1]
      by_cases hb2 : oldIdx < oldL.length ∧
          (¬ lcsIdx < lcs.length ∨ oldL.get? oldIdx ≠ lcs.get? lcsIdx)
      · -- removed line
        rw [if_pos hb2]
        obtain ⟨hold, hdisj⟩ := hb2
        have hdO := List.drop_eq_getElem_cons hold
        have hso : List.Sublist (lcs.drop lcsIdx) (oldL.drop (oldIdx + 1)) := by
          by_cases hlcs : lcsIdx < lcs.length
          · have heq' : oldL.get? oldIdx ≠ lcs.get? lcsIdx := by
              rcases hdisj with h | h
              · exact absurd hlcs h
              · exact h
            have hdL := List.drop_eq_getElem_cons hlcs
            have e1 : lcs[lcsIdx] ≠ oldL[oldIdx] := by
              intro h
              exact heq' (by
                rw [get?_eq_some_getElem hold, get?_eq_some_getElem hlcs, h])
            rw [hdL]
            rw [hdL, hdO] at hsubOld
            exact sublist_cons_of_head_ne hsubOld e1
          · rw [List.drop_eq_nil_of_le (by omega)]
            exact List.nil_sublist _
        have hsn : List.Sublist (lcs.drop lcsIdx) (newL.drop newIdx) := hsubNew
        obtain ⟨res, hres, hmapN, hmapO⟩ :=
          ih (oldIdx + 1) newIdx lcsIdx (by omega) hso hsn
        refine ⟨⟨.removed, oldL.get? oldIdx, some (oldIdx + 1), none⟩ :: res,
          by rw [hres]; rfl, ?_, ?_⟩
        · rw [List.filter_cons_of_neg (by simp)]
          exact hmapN
        · rw [List.filter_cons_of_pos rfl, List.map_cons, hmapO, hdO,
            List.map_cons, get?_eq_some_getElem hold]
      · rw [if_neg hb2]
        -- here the old cursor must be exhausted
        have holdge : oldL.length ≤ oldIdx := by
          by_contra h
          have hold : oldIdx < oldL.length := by omega
          have hdisj : ¬(¬ lcsIdx < lcs.length ∨
              oldL.get? oldIdx ≠ lcs.get? lcsIdx) := fun d => hb2 ⟨hold, d⟩
          push_neg at hdisj
          exact hb1 ⟨hdisj.1, hold, hdisj.2⟩
        have hlnil : lcs.drop lcsIdx = [] := by
          rw [List.drop_eq_nil_of_le holdge] at hsubOld
          exact List.sublist_nil.mp hsubOld
        have hnew : newIdx < newL.length := by omega
        rw [if_pos hnew]
        have hdN := List.drop_eq_getElem_cons hnew
        obtain ⟨res, hres, hmapN, hmapO⟩ :=
          ih oldIdx (newIdx + 1) lcsIdx (by omega) hsubOld
            (hlnil ▸ List.nil_sublist _)
        refine ⟨⟨.added, newL.get? newIdx, none, some (newIdx + 1)⟩ :: res,
          by rw [hres]; rfl, ?_, ?_⟩
        · rw [List.filter_cons_of_pos rfl, List.map_cons, hmapN, hdN,
            List.map_cons, get?_eq_some_getElem hnew]
        · rw [List.filter_cons_of_neg (by simp)]
          exact hmapO

/-- C1: for every pair of texts, `computeDiff` terminates and its output
round-trips: joining with a newline the contents of all lines whose type
is not `removed` (in emitted order) gives back `newText` exactly, and
joining the contents of all lines whose type is not `added` gives back
`oldText` exactly. -/
theorem computeDiff_round_trip (oldText newText : List Char) :
    ∃ res, computeDiff oldText newText = some res ∧
      joinNl ((res.filter (fun l => l.dtype ≠ DType.removed)).map
        (fun l => l.content.getD [])) = newText ∧
      joinNl ((res.filter (fun l => l.dtype ≠ DType.added)).map
        (fun l => l.content.getD [])) = oldText := by
  obtain ⟨hsubO, hsubN⟩ := computeLCS_sublist (splitOnNl oldText) (splitOnNl newText)
  obtain ⟨res, hres, hmapN, hmapO⟩ :=
    diffLoop_spec (splitOnNl oldText) (splitOnNl newText)
      (computeLCS (splitOnNl oldText) (splitOnNl newText))
      ((splitOnNl oldText).length + (splitOnNl newText).length) 0 0 0
      (by omega) (by simpa using hsubO) (by simpa using hsubN)
  refine ⟨res, by simpa [computeDiff] using hres, ?_, ?_⟩
  · have h : (res.filter (fun l => l.dtype ≠ DType.removed)).map
        (fun l => l.content.getD []) = splitOnNl newText := by
      have h2 := congrArg (List.map (fun o : Option Line => o.getD [])) hmapN
      simpa [List.map_map, Function.comp_def] using h2
    rw [h, joinNl_splitOnNl]
  · have h : (res.filter (fun l => l.dtype ≠ DType.added)).map
        (fun l => l.content.getD []) = splitOnNl oldText := by
      have h2 := congrArg (List.map (fun o : Option Line => o.getD [])) hmapO
      simpa [List.map_map, Function.comp_def] using h2
    rw [h, joinNl_splitOnNl]

/-- C10: `computeDiff` is total — the lockstep walk terminates within
`m + n` iterations for every input pair — and every emitted `DiffLine`
carries a defined content (the reads `oldLines[oldIdx]` /
`newLines[newIdx]` it performs are in bounds). -/
theorem computeDiff_total_in_bounds (oldText newText : List Char) :
    ∃ res, computeDiff oldText newText = some res ∧
      ∀ l ∈ res, l.content.isSome := by
  obtain ⟨hsubO, hsubN⟩ := computeLCS_sublist (splitOnNl oldText) (splitOnNl newText)
  obtain ⟨res, hres, hmapN, hmapO⟩ :=
    diffLoop_spec (splitOnNl oldText) (splitOnNl newText)
      (computeLCS (splitOnNl oldText) (splitOnNl newText))
      ((splitOnNl oldText).length + (splitOnNl newText).length) 0 0 0
      (by omega) (by simpa using hsubO) (by simpa using hsubN)
  refine ⟨res, by simpa [computeDiff] using hres, ?_⟩
  intro l hl
  by_cases hd : l.dtype = DType.added
  · have hmem : l ∈ res.filter (fun x => x.dtype ≠ DType.removed) :=
      List.mem_filter.mpr ⟨hl, by simp [hd]⟩
    have hc : l.content ∈ (res.filter (fun x => x.dtype ≠ DType.removed)).map
        (fun x => x.content) := List.mem_map_of_mem _ hmem
    rw [hmapN] at hc
    obtain ⟨v, _, hv⟩ := List.mem_map.mp hc
    rw [← hv]
    rfl
  · have hmem : l ∈ res.filter (fun x => x.dtype ≠ DType.added) :=
      List.mem_filter.mpr ⟨hl, by simp [hd]⟩
    have hc : l.content ∈ (res.filter (fun x => x.dtype ≠ DType.added)).map
        (fun x => x.content) := List.mem_map_of_mem _ hmem
    rw [hmapO] at hc
    obtain ⟨v, _, hv⟩ := List.mem_map.mp hc
    rw [← hv]
    rfl

/-- C2 counterexample: hit-testing the handles is NOT zoom-invariant for
a fixed image-space pointer position. For the stored box
`(0,0)-(100,100)` and the image-space pointer `(110, 50)`,
`getHandleAtPosition` returns the `e` handle at zoom 0.5 and at zoom 1,
but `null` at zoom 2, because its image-space hit tolerance is
`HANDLE_HIT_AREA / zoom = 12 / zoom`, which shrinks as the zoom grows. -/
theorem getHandleAtPosition_not_zoom_invariant :
    getHandleAtPosition 110 50 ⟨0, 0, 100, 100⟩ (1/2) = some Handle.e ∧
    getHandleAtPosition 110 50 ⟨0, 0, 100, 100⟩ 1 = some Handle.e ∧
    getHandleAtPosition 110 50 ⟨0, 0, 100, 100⟩ 2 = none ∧
    getHandleAtPosition 110 50 ⟨0, 0, 100, 100⟩ (1/2) ≠
      getHandleAtPosition 110 50 ⟨0, 0, 100, 100⟩ 2 := by
  have h1 : getHandleAtPosition 110 50 ⟨0, 0, 100, 100⟩ (1/2) = some Handle.e := by
    simp only [getHandleAtPosition, HANDLE_HIT_AREA]
    norm_num [abs_sub_lt_iff]
  have h2 : getHandleAtPosition 110 50 ⟨0, 0, 100, 100⟩ 1 = some Handle.e := by
    simp only [getHandleAtPosition, HANDLE_HIT_AREA]
    norm_num [abs_sub_lt_iff]
  have h3 : getHandleAtPosition 110 50 ⟨0, 0, 100, 100⟩ 2 = none := by
    simp only [getHandleAtPosition, HANDLE_HIT_AREA]
    norm_num [abs_sub_lt_iff]
  exact ⟨h1, h2, h3, by rw [h1, h3]; simp⟩

/-- C2 (amended): the box-id component of hit-testing is zoom-invariant.
`getChangeAtPosition` takes only image-space coordinates and does not read
the zoom, and `getImageCoordinates` recovers a fixed integer image-space
pointer exactly at every non-zero zoom (in particular 0.5, 1 and 2), so
the change found under the pointer is the same at every zoom. The handle
component (`getHandleAtPosition`) is not zoom-invariant, see the
counterexample. -/
theorem getChangeAtPosition_zoom_invariant (changes : List Change)
    (rectLeft rectTop : ℚ) (px py : ℤ) (z : ℚ) (hz : z ≠ 0) :
    changeAtZoom changes rectLeft rectTop px py z =
      getChangeAtPosition changes (px : ℚ) (py : ℚ) := by
  have hx : round ((px : ℚ) * z / z) = px := by
    rw [mul_div_assoc, div_self hz, mul_one, round_intCast]
  have hy : round ((py : ℚ) * z / z) = py := by
    rw [mul_div_assoc, div_self hz, mul_one, round_intCast]
  simp [changeAtZoom, getImageCoordinates, add_sub_cancel_left, hx, hy]

/-- Witness for the amended C2 theorem at a concrete input. -/
theorem getChangeAtPosition_zoom_invariant_witness :
    (2 : ℚ) ≠ 0 ∧
    changeAtZoom [] 3 4 5 7 2 =
      getChangeAtPosition [] ((5 : ℤ) : ℚ) ((7 : ℤ) : ℚ) :=
  ⟨by norm_num, getChangeAtPosition_zoom_invariant [] 3 4 5 7 2 (by norm_num)⟩

/-- C6 counterexample: `handleCenter` ("center on change") does not clamp
the zoom to the lower bound 0.2. Centering a 1000×1000 container on the
box `(0,0)-(10000,100)` sets the zoom to `min(0.08, 8, 1) = 0.08 < 0.2`. -/
theorem centerZoom_below_min :
    centerZoom 1000 1000 ⟨0, 0, 10000, 100⟩ < 1/5 ∧
    ¬ (1/5 ≤ centerZoom 1000 1000 ⟨0, 0, 10000, 100⟩ ∧
        centerZoom 1000 1000 ⟨0, 0, 10000, 100⟩ ≤ 4) := by
  norm_num [centerZoom, min_def]

/-- C6 (amended): the zoom-in / zoom-out buttons and their keyboard
shortcuts and pinch-to-zoom keep `zoomLevel` inside `[0.2, 4]` (the two
reset actions set the constants 0.2 and 1, which lie inside), but
`handleCenter` only caps the zoom above at 1: for a positive box and
container it produces a value in `(0, 1]` that can be below 0.2. -/
theorem zoom_ops_bounded (z delta containerWidth containerHeight : ℚ)
    (box : BoundingBox) (hz1 : 1/5 ≤ z) (hz2 : z ≤ 4)
    (hw : 0 < containerWidth) (hh : 0 < containerHeight)
    (hbw : 0 < box.xmax - box.xmin) (hbh : 0 < box.ymax - box.ymin) :
    (1/5 ≤ zoomIn z ∧ zoomIn z ≤ 4) ∧
    (1/5 ≤ zoomOut z ∧ zoomOut z ≤ 4) ∧
    (1/5 ≤ pinchZoom z delta ∧ pinchZoom z delta ≤ 4) ∧
    (0 < centerZoom containerWidth containerHeight box ∧
      centerZoom containerWidth containerHeight box ≤ 1) := by
  refine ⟨⟨?_, ?_⟩, ⟨?_, ?_⟩, ⟨?_, ?_⟩, ⟨?_, ?_⟩⟩
  · exact le_min (by linarith) (by norm_num)
  · exact min_le_right _ _
  · exact le_max_of_le_right le_rfl
  · exact max_le (by linarith) (by norm_num)
  · exact le_min (by norm_num) (le_max_left _ _)
  · exact min_le_left _ _
  · refine lt_min (lt_min ?_ ?_) one_pos <;> positivity
  · exact min_le_right _ _

/-- Witness for the amended C6 theorem at a concrete input. -/
theorem zoom_ops_bounded_witness :
    ((1 : ℚ)/5 ≤ 1 ∧ (1 : ℚ) ≤ 4 ∧ (0 : ℚ) < 100 ∧
      (0 : ℚ) < (50 : ℚ) - 0) ∧
    ((1/5 ≤ zoomIn 1 ∧ zoomIn 1 ≤ 4) ∧
     (1/5 ≤ zoomOut 1 ∧ zoomOut 1 ≤ 4) ∧
     (1/5 ≤ pinchZoom 1 (3/10) ∧ pinchZoom 1 (3/10) ≤ 4) ∧
     (0 < centerZoom 100 100 ⟨0, 0, 50, 50⟩ ∧
       centerZoom 100 100 ⟨0, 0, 50, 50⟩ ≤ 1)) :=
  ⟨⟨by norm_num, by norm_num, by norm_num, by norm_num⟩,
    zoom_ops_bounded 1 (3/10) 100 100 ⟨0, 0, 50, 50⟩ (by norm_num)
      (by norm_num) (by norm_num) (by norm_num) (by norm_num) (by norm_num)⟩

/-- C8: `rawChangeToChange` coerces an unrecognized `action` string to
`Other` and an unrecognized `direction` string to `null`, without any
error; in particular importing
`(action:"Bogus", elements:["Wall"], direction:"diagonal", value:null,
location:(10,10)-(50,50))` yields a `Change` with `action = Other` and
`direction = null`. -/
theorem rawChangeToChange_coerces_unrecognized :
    (∀ (raw : RawChange) (freshId : String),
      raw.action ∉ ["Add", "Remove", "Move", "Dimension Change", "Other"] →
      (rawChangeToChange raw freshId).action = ActionType.other) ∧
    (∀ (raw : RawChange) (freshId : String) (s : String),
      raw.direction = some s → s ∉ ["Up", "Down", "Left", "Right"] →
      (rawChangeToChange raw freshId).direction = none) ∧
    (∀ freshId : String,
      (rawChangeToChange
        ⟨"Bogus", ["Wall"], some "diagonal", none, none, none, none,
          ⟨10, 10, 50, 50⟩⟩ freshId).action = ActionType.other ∧
      (rawChangeToChange
        ⟨"Bogus", ["Wall"], some "diagonal", none, none, none, none,
          ⟨10, 10, 50, 50⟩⟩ freshId).direction = none) := by
  refine ⟨?_, ?_, fun freshId => ⟨rfl, rfl⟩⟩
  · intro raw freshId h
    simp only [List.mem_cons, List.not_mem_nil, or_false, not_or] at h
    obtain ⟨h1, h2, h3, h4, _⟩ := h
    simp [rawChangeToChange, parseAction, h1, h2, h3, h4]
  · intro raw freshId s hs h
    simp only [List.mem_cons, List.not_mem_nil, or_false, not_or] at h
    obtain ⟨h1, h2, h3, h4⟩ := h
    simp [rawChangeToChange, parseDirection, hs, h1, h2, h3, h4]

/-- Witness for the C8 theorem at a concrete input. -/
theorem rawChangeToChange_coerces_unrecognized_witness :
    ("Bogus" ∉ ["Add", "Remove", "Move", "Dimension Change", "Other"]) ∧
    (rawChangeToChange
      ⟨"Bogus", ["Wall"], some "diagonal", none, none, none, none,
        ⟨10, 10, 50, 50⟩⟩ "id-1").action = ActionType.other :=
  ⟨by decide, rawChangeToChange_coerces_unrecognized.1
    ⟨"Bogus", ["Wall"], some "diagonal", none, none, none, none,
      ⟨10, 10, 50, 50⟩⟩ "id-1" (by decide)⟩

theorem parseAction_actionToString (a : ActionType) :
    parseAction (actionToString a) = a := by
  cases a <;> rfl

theorem parseDirection_map_directionToString (d : Option Direction) :
    parseDirection (d.map directionToString) = d := by
  rcases d with _ | d
  · rfl
  · cases d <;> rfl

/-- C9 counterexample: export followed by re-import does NOT reproduce
every field except the id — the `approved` flag is not part of
`RawChange`, so an exported approved change comes back unapproved. -/
theorem export_import_drops_approved :
    (rawChangeToChange (changeToRawChange
      ⟨"c1", .add, ["Wall"], none, none, none, none, ⟨0, 0, 20, 20⟩, true⟩)
        "c2").approved ≠
    (⟨"c1", .add, ["Wall"], none, none, none, none, ⟨0, 0, 20, 20⟩, true⟩ :
      Change).approved := by
  decide

/-- C9 (amended): `changeToRawChange` is inverse to `rawChangeToChange` up
to the dropped `id` AND the dropped `approved` flag: re-importing an
exported change reproduces every field except that the id is freshly
assigned and `approved` is reset to `false`. -/
theorem export_import_round_trip (c : Change) (freshId : String) :
    rawChangeToChange (changeToRawChange c) freshId =
      { c with id := freshId, approved := false } := by
  cases c with
  | mk id action elements direction fromValue toValue description location approved =>
    simp only [rawChangeToChange, changeToRawChange,
      parseAction_actionToString, parseDirection_map_directionToString]
    cases fromValue <;> rfl

/-- C3 counterexample: a committed move gesture can translate a box to
negative coordinates. Dragging the interior of the stored box
`(50,50)-(100,100)` from `(60,60)` to `(0,60)` produces the candidate box
`(-10,50)-(40,100)`, and the commit installs it unchanged in the change
list — `xmin = -10 < 0` violates the claimed invariant. -/
theorem resize_commit_negative_coordinate :
    (computeResizeBox .move ⟨50, 50, 100, 100⟩ (60, 60) (0, 60)).xmin < 0 ∧
    commitResize
        [⟨"c1", .add, ["Wall"], none, none, none, none, ⟨50, 50, 100, 100⟩, false⟩]
        "c1" (computeResizeBox .move ⟨50, 50, 100, 100⟩ (60, 60) (0, 60)) =
      [⟨"c1", .add, ["Wall"], none, none, none, none, ⟨-10, 50, 40, 100⟩, false⟩] := by
  constructor
  · norm_num [computeResizeBox]
  · simp only [commitResize, computeResizeBox, List.map_cons, List.map_nil,
      beq_self_eq_true, if_true]
    norm_num

/-- C3 (amended): import (which goes through `validateBoundingBox`) only
accepts boxes with non-negative coordinates and positive extent; a
completed draw whose pointer coordinates are non-negative satisfies the
same invariant; and a committed resize or move preserves `xmax > xmin`
and `ymax > ymin` — but not non-negativity, which a move (or a corner
drag of a box with `xmax < 10`) can break, see the counterexample. -/
theorem box_commit_invariants :
    (∀ b : BoundingBox, validateBoundingBox b = true →
      0 ≤ b.xmin ∧ 0 ≤ b.ymin ∧ 0 ≤ b.xmax ∧ 0 ≤ b.ymax ∧
        b.xmin < b.xmax ∧ b.ymin < b.ymax) ∧
    (∀ (start cur : ℚ × ℚ) (box : BoundingBox),
      0 ≤ start.1 → 0 ≤ start.2 → 0 ≤ cur.1 → 0 ≤ cur.2 →
      handleMouseUpDraw start cur = some box →
      0 ≤ box.xmin ∧ 0 ≤ box.ymin ∧ 0 ≤ box.xmax ∧ 0 ≤ box.ymax ∧
        box.xmin < box.xmax ∧ box.ymin < box.ymax) ∧
    (∀ (h : Handle) (orig : BoundingBox) (startCoords coords : ℚ × ℚ),
      orig.xmin < orig.xmax → orig.ymin < orig.ymax →
      (computeResizeBox h orig startCoords coords).xmin <
          (computeResizeBox h orig startCoords coords).xmax ∧
        (computeResizeBox h orig startCoords coords).ymin <
          (computeResizeBox h orig startCoords coords).ymax) := by
  refine ⟨?_, ?_, ?_⟩
  · intro b hb
    simp only [validateBoundingBox, Bool.and_eq_true, decide_eq_true_eq] at hb
    tauto
  · intro start cur box h1 h2 h3 h4 hsome
    simp only [handleMouseUpDraw, drawCompleteBox] at hsome
    split at hsome
    · rename_i hcond
      cases hsome
      refine ⟨le_min h1 h3, le_min h2 h4,
        le_trans h1 (le_max_left _ _), le_trans h2 (le_max_left _ _), ?_, ?_⟩
      · have := hcond.1
        simp only [drawCompleteBox] at this ⊢
        linarith
      · have := hcond.2
        simp only [drawCompleteBox] at this ⊢
        linarith
    · exact absurd hsome (by simp)
  · intro h orig startCoords coords hx hy
    cases h <;>
      (simp only [computeResizeBox]
       constructor <;>
        linarith [min_le_right coords.1 (orig.xmax - 10),
          min_le_right coords.2 (orig.ymax - 10),
          le_max_right coords.1 (orig.xmin + 10),
          le_max_right coords.2 (orig.ymin + 10)])

/-- Witness for the amended C3 theorem at a concrete input. -/
theorem box_commit_invariants_witness :
    ((⟨0, 0, 20, 20⟩ : BoundingBox).xmin < (⟨0, 0, 20, 20⟩ : BoundingBox).xmax) ∧
    ((computeResizeBox .move ⟨0, 0, 20, 20⟩ (1, 1) (2, 2)).xmin <
        (computeResizeBox .move ⟨0, 0, 20, 20⟩ (1, 1) (2, 2)).xmax ∧
      (computeResizeBox .move ⟨0, 0, 20, 20⟩ (1, 1) (2, 2)).ymin <
        (computeResizeBox .move ⟨0, 0, 20, 20⟩ (1, 1) (2, 2)).ymax) :=
  ⟨by norm_num, box_commit_invariants.2.2 .move ⟨0, 0, 20, 20⟩ (1, 1) (2, 2)
    (by norm_num) (by norm_num)⟩

/-- C7 counterexample: a stored box narrower than the 10px minimum is
accepted by import validation (`validateBoundingBox` only demands positive
extent), and a completed move gesture on it commits a box of width 5 < 10
into the store — so a resize gesture CAN result in a store mutation
installing a box below the minimum size. -/
theorem resize_commit_below_min_size :
    validateBoundingBox ⟨0, 0, 5, 50⟩ = true ∧
    (computeResizeBox .move ⟨0, 0, 5, 50⟩ (1, 1) (3, 1)).xmax -
      (computeResizeBox .move ⟨0, 0, 5, 50⟩ (1, 1) (3, 1)).xmin < 10 ∧
    commitResize
        [⟨"c2", .remove, ["Door"], none, none, none, none, ⟨0, 0, 5, 50⟩, false⟩]
        "c2" (computeResizeBox .move ⟨0, 0, 5, 50⟩ (1, 1) (3, 1)) =
      [⟨"c2", .remove, ["Door"], none, none, none, none, ⟨2, 0, 7, 50⟩, false⟩] := by
  refine ⟨?_, ?_, ?_⟩
  · simp only [validateBoundingBox, Bool.and_eq_true, decide_eq_true_eq]
    norm_num
  · norm_num [computeResizeBox]
  · simp only [commitResize, computeResizeBox, List.map_cons, List.map_nil,
      beq_self_eq_true, if_true]
    norm_num

/-- C7 (amended): the draw path enforces the minimum size
unconditionally — a gesture whose normalised box is below the minimum is
silently discarded (`none`, no change added), and an accepted draw has
both dimensions ≥ 10. A resize (any handle, including `move`) commits a
box with both dimensions ≥ 10 provided the original box already had both
dimensions ≥ 10; originals below the minimum (which import validation
accepts) are not repaired, see the counterexample. -/
theorem min_size_enforcement :
    (∀ (start cur : ℚ × ℚ) (box : BoundingBox),
      handleMouseUpDraw start cur = some box →
      10 ≤ box.xmax - box.xmin ∧ 10 ≤ box.ymax - box.ymin) ∧
    (∀ start cur : ℚ × ℚ,
      handleMouseUpDraw start cur = none ↔
        (drawCompleteBox start cur).xmax - (drawCompleteBox start cur).xmin < 10 ∨
        (drawCompleteBox start cur).ymax - (drawCompleteBox start cur).ymin < 10) ∧
    (∀ (h : Handle) (orig : BoundingBox) (startCoords coords : ℚ × ℚ),
      10 ≤ orig.xmax - orig.xmin → 10 ≤ orig.ymax - orig.ymin →
      10 ≤ (computeResizeBox h orig startCoords coords).xmax -
          (computeResizeBox h orig startCoords coords).xmin ∧
        10 ≤ (computeResizeBox h orig startCoords coords).ymax -
          (computeResizeBox h orig startCoords coords).ymin) := by
  refine ⟨?_, ?_, ?_⟩
  · intro start cur box hsome
    simp only [handleMouseUpDraw] at hsome
    split at hsome
    · rename_i hcond
      cases hsome
      exact hcond
    · exact absurd hsome (by simp)
  · intro start cur
    simp only [handleMouseUpDraw]
    split
    · rename_i hcond
      exact iff_of_false (by simp)
        (by push_neg; exact ⟨hcond.1, hcond.2⟩)
    · rename_i hcond
      refine iff_of_true rfl ?_
      by_contra hcon
      push_neg at hcon
      exact hcond ⟨hcon.1, hcon.2⟩
  · intro h orig startCoords coords hx hy
    cases h <;>
      (simp only [computeResizeBox]
       constructor <;>
        linarith [min_le_right coords.1 (orig.xmax - 10),
          min_le_right coords.2 (orig.ymax - 10),
          le_max_right coords.1 (orig.xmin + 10),
          le_max_right coords.2 (orig.ymin + 10)])

/-- Witness for the amended C7 theorem at a concrete input. -/
theorem min_size_enforcement_witness :
    ((10 : ℚ) ≤ (⟨0, 0, 30, 40⟩ : BoundingBox).xmax - (⟨0, 0, 30, 40⟩ : BoundingBox).xmin) ∧
    (10 ≤ (computeResizeBox .se ⟨0, 0, 30, 40⟩ (30, 40) (4, 4)).xmax -
        (computeResizeBox .se ⟨0, 0, 30, 40⟩ (30, 40) (4, 4)).xmin ∧
      10 ≤ (computeResizeBox .se ⟨0, 0, 30, 40⟩ (30, 40) (4, 4)).ymax -
        (computeResizeBox .se ⟨0, 0, 30, 40⟩ (30, 40) (4, 4)).ymin) :=
  ⟨by norm_num, min_size_enforcement.2.2 .se ⟨0, 0, 30, 40⟩ (30, 40) (4, 4)
    (by norm_num) (by norm_num)⟩

theorem find?_map_id_preserved (g : PendingEdit → PendingEdit)
    (p : PendingEdit → Bool) (hg : ∀ x, p (g x) = p x) (l : List PendingEdit) :
    (l.map g).find? p = (l.find? p).map g := by
  induction l with
  | nil => rfl
  | cons a l ih =>
    by_cases ha : p a = true
    · rw [List.map_cons, List.find?_cons_of_pos _ (by rw [hg]; exact ha),
        List.find?_cons_of_pos _ ha]
      rfl
    · rw [List.map_cons, List.find?_cons_of_neg _ (by rw [hg]; exact ha),
        List.find?_cons_of_neg _ ha, ih]

/-- C5 counterexample: `handleApplyEdit` does not guard on the edit's
status, so invoking apply twice on the same `create`-type edit DOES
modify the project files a second time: the new file is appended twice
(one file after the first apply, two after the second). -/
theorem apply_edit_double_apply :
    ((handleApplyEdit (handleApplyEdit
        ⟨[], [⟨"e1", .create, "notes.md", "hello", none, .pending⟩]⟩
        "e1") "e1").files).length = 2 ∧
    ((handleApplyEdit
        ⟨[], [⟨"e1", .create, "notes.md", "hello", none, .pending⟩]⟩
        "e1").files).length = 1 := by
  constructor <;> rfl

/-- C5 (amended): a `PendingEdit`'s status never returns to `pending`
(apply and reject only move edits out of `pending`; every edit still
pending afterwards was already present, unchanged). Re-applying an
`update`/`edit`-type edit leaves the files unchanged the second time, but
the handlers do not check the current status: re-applying a `create`-type
edit appends the file a second time (see the counterexample) — the UI
only offers apply/reject buttons for edits whose status is `pending`. -/
theorem pending_edit_status_one_way :
    (∀ (st : ArtifactState) (editId : String) (e' : PendingEdit),
      e' ∈ (handleApplyEdit st editId).pendingEdits →
      e'.status = .pending → e' ∈ st.pendingEdits) ∧
    (∀ (st : ArtifactState) (editId : String) (e' : PendingEdit),
      e' ∈ (handleRejectEdit st editId).pendingEdits →
      e'.status = .pending → e' ∈ st.pendingEdits) ∧
    (∀ (st : ArtifactState) (editId : String) (e : PendingEdit),
      st.pendingEdits.find? (fun x => x.id == editId) = some e →
      e.type ≠ .create →
      (handleApplyEdit (handleApplyEdit st editId) editId).files =
        (handleApplyEdit st editId).files) := by
  refine ⟨?_, ?_, ?_⟩
  · intro st editId e' hmem hpend
    rcases hfind : st.pendingEdits.find? (fun x => x.id == editId) with _ | edit
    · simp only [handleApplyEdit, hfind] at hmem
      exact hmem
    · simp only [handleApplyEdit, hfind] at hmem
      obtain ⟨e, he, hfe⟩ := List.mem_map.mp hmem
      by_cases hid : (e.id == editId) = true
      · rw [if_pos hid] at hfe
        rw [← hfe] at hpend
        simp at hpend
      · rw [if_neg hid] at hfe
        rw [← hfe]
        exact he
  · intro st editId e' hmem hpend
    simp only [handleRejectEdit] at hmem
    obtain ⟨e, he, hfe⟩ := List.mem_map.mp hmem
    by_cases hid : (e.id == editId) = true
    · rw [if_pos hid] at hfe
      rw [← hfe] at hpend
      simp at hpend
    · rw [if_neg hid] at hfe
      rw [← hfe]
      exact he
  · intro st editId e hfind htype
    have heid := List.find?_some hfind
    have hfind2 : (handleApplyEdit st editId).pendingEdits.find?
        (fun x => x.id == editId) = some { e with status := .applied } := by
      simp only [handleApplyEdit, hfind]
      rw [find?_map_id_preserved
        (fun y => if y.id == editId then
          ({ y with status := EditStatus.applied } : PendingEdit) else y)
        (fun x => x.id == editId) ?_ st.pendingEdits, hfind]
      · exact congrArg some (if_pos heid)
      · intro x
        show ((if (x.id == editId) = true then
          ({ x with status := EditStatus.applied } : PendingEdit) else x).id
            == editId) = (x.id == editId)
        by_cases hx : (x.id == editId) = true
        · rw [if_pos hx]
        · rw [if_neg hx]
    have htype2 : ({ e with status := EditStatus.applied } : PendingEdit).type
        ≠ EditType.create := htype
    set st1 := handleApplyEdit st editId with hst1
    have hfiles1 : st1.files = st.files.map (fun f =>
        if f.name == e.filename then
          ({ f with content := e.newContent } : ContextFile) else f) := by
      rw [hst1]
      simp only [handleApplyEdit, hfind]
      rw [if_neg htype]
    simp only [handleApplyEdit, hfind2]
    rw [if_neg htype2, hfiles1, List.map_map]
    apply List.map_congr_left
    intro f _
    simp only [Function.comp_apply]
    by_cases hf : (f.name == e.filename) = true
    · rw [if_pos hf]
      rw [if_pos hf]
    · rw [if_neg hf]
      rw [if_neg hf]

/-- Witness for the amended C5 theorem at a concrete input. -/
theorem pending_edit_status_one_way_witness :
    (([⟨"e1", EditType.update, "a.md", "y", some "x", EditStatus.pending⟩] :
        List PendingEdit).find? (fun x => x.id == "e1") =
      some ⟨"e1", EditType.update, "a.md", "y", some "x", EditStatus.pending⟩) ∧
    ((⟨"e1", EditType.update, "a.md", "y", some "x", EditStatus.pending⟩ :
      PendingEdit).type ≠ EditType.create) ∧
    (handleApplyEdit (handleApplyEdit
        ⟨[⟨"a.md", "x"⟩], [⟨"e1", .update, "a.md", "y", some "x", .pending⟩]⟩
        "e1") "e1").files =
      (handleApplyEdit
        ⟨[⟨"a.md", "x"⟩], [⟨"e1", .update, "a.md", "y", some "x", .pending⟩]⟩
        "e1").files :=
  ⟨rfl, by decide,
    pending_edit_status_one_way.2.2
      ⟨[⟨"a.md", "x"⟩], [⟨"e1", .update, "a.md", "y", some "x", .pending⟩]⟩
      "e1" ⟨"e1", .update, "a.md", "y", some "x", .pending⟩ rfl (by decide)⟩

theorem updatePageChanges_ids (pages : List PageSt) (pageId : String)
    (changes : List Change) :
    (updatePageChanges pages pageId changes).map (fun p => p.id) =
      pages.map (fun p => p.id) := by
  simp only [updatePageChanges, List.map_map]
  apply List.map_congr_left
  intro p _
  simp only [Function.comp_apply]
  by_cases h : (p.id == pageId) = true
  · rw [if_pos h]
  · rw [if_neg h]

theorem eq_of_findPage_of_nodup (pages : List PageSt) (pageId : String)
    (page : PageSt) (hfind : findPage pages pageId = some page)
    (hnodup : (pages.map (fun p => p.id)).Nodup) :
    ∀ q ∈ pages, q.id = pageId → q = page := by
  induction pages with
  | nil => simp [findPage] at hfind
  | cons p ps ih =>
    simp only [List.map_cons, List.nodup_cons] at hnodup
    obtain ⟨hnotin, hnodup⟩ := hnodup
    intro q hq hqid
    by_cases hp : (p.id == pageId) = true
    · have hfindp : findPage (p :: ps) pageId = some p := by
        simp only [findPage]
        exact List.find?_cons_of_pos _ hp
      have hpage : page = p := by
        rw [hfindp] at hfind
        exact (Option.some.inj hfind).symm
      subst hpage
      rcases List.mem_cons.mp hq with rfl | hq'
      · rfl
      · exfalso
        have hpid : page.id = pageId := by simpa using hp
        have : q.id ∈ ps.map (fun p => p.id) := List.mem_map_of_mem _ hq'
        rw [hqid, ← hpid] at this
        exact hnotin this
    · have hfind' : findPage ps pageId = some page := by
        have hstep : findPage (p :: ps) pageId = findPage ps pageId := by
          simp only [findPage]
          exact List.find?_cons_of_neg _ hp
        rw [hstep] at hfind
        exact hfind
      rcases List.mem_cons.mp hq with rfl | hq'
      · exact absurd (by simpa using hqid) hp
      · exact ih hfind' hnodup q hq' hqid

theorem updatePageChanges_restore (pages : List PageSt) (pageId : String)
    (page : PageSt) (x : List Change)
    (hfind : findPage pages pageId = some page)
    (hnodup : (pages.map (fun p => p.id)).Nodup) :
    updatePageChanges (updatePageChanges pages pageId x) pageId page.changes
      = pages := by
  have huniq := eq_of_findPage_of_nodup pages pageId page hfind hnodup
  simp only [updatePageChanges, List.map_map]
  have hpt : ∀ q ∈ pages,
      ((fun p : PageSt => if p.id == pageId then
          ({ p with changes := page.changes } : PageSt) else p) ∘
       (fun p : PageSt => if p.id == pageId then
          ({ p with changes := x } : PageSt) else p)) q = id q := by
    intro q hq
    simp only [Function.comp_apply, id_eq]
    by_cases hq' : (q.id == pageId) = true
    · rw [if_pos hq']
      show (if (q.id == pageId) = true then
        ({ id := q.id, changes := page.changes } : PageSt)
        else { id := q.id, changes := x }) = q
      rw [if_pos hq']
      have : q = page := huniq q hq (by simpa using hq')
      rw [this]
    · rw [if_neg hq']
      rw [if_neg hq']
  rw [List.map_congr_left hpt, List.map_id]

theorem pushUndo_of_le (s : List Snapshot) (snap : Snapshot)
    (h : s.length ≤ 19) : pushUndo s snap = s ++ [snap] := by
  simp [pushUndo, Nat.sub_eq_zero_of_le h]

theorem opUndo_concat (pages : List PageSt) (stack : List Snapshot)
    (snap : Snapshot) :
    opUndo ⟨pages, stack ++ [snap]⟩ =
      ⟨updatePageChanges pages snap.pageId snap.changes, stack⟩ := by
  simp [opUndo, List.getLast?_concat, List.dropLast_concat]

/-- C4 counterexample: `handleDelete` (the change-list delete button)
pushes no undo snapshot, so N = 1 delete followed by one undo does NOT
restore the change list: the page still has 0 changes where it had 1, and
the state differs from the original. -/
theorem delete_button_not_undone :
    ((opUndo (opDeleteBtn
        ⟨[⟨"p1", [⟨"c1", .add, ["Wall"], none, none, none, none,
          ⟨0, 0, 20, 20⟩, false⟩]⟩], []⟩
        "p1" "c1")).pages.map (fun p => p.changes.length) = [0]) ∧
    ((⟨[⟨"p1", [⟨"c1", .add, ["Wall"], none, none, none, none,
          ⟨0, 0, 20, 20⟩, false⟩]⟩], []⟩ :
        EditorState).pages.map (fun p => p.changes.length) = [1]) ∧
    opUndo (opDeleteBtn
        ⟨[⟨"p1", [⟨"c1", .add, ["Wall"], none, none, none, none,
          ⟨0, 0, 20, 20⟩, false⟩]⟩], []⟩
        "p1" "c1") ≠
      ⟨[⟨"p1", [⟨"c1", .add, ["Wall"], none, none, none, none,
          ⟨0, 0, 20, 20⟩, false⟩]⟩], []⟩ := by
  refine ⟨rfl, rfl, ?_⟩
  intro h
  have h2 := congrArg
    (fun st : EditorState => st.pages.map (fun p => p.changes.length)) h
  have h3 : ([0] : List Nat) = [1] := h2
  exact absurd h3 (by decide)

/-- C4 (amended): undo is exact for the operations that snapshot — resize
commits (`handleChangeLocationUpdate`) and keyboard (`'D'`) deletes — as
long as the 20-entry undo-stack cap is not exceeded: for any sequence of
N such operations on existing pages with pairwise-distinct ids, invoking
undo N times restores the exact pages (and undo stack) present before the
first operation, by value. Deletes through `handleDelete` push no
snapshot and are not restored (see the counterexample), and beyond the
cap the oldest snapshots are discarded. -/
theorem undo_restores (ops : List SnapOp) :
    ∀ st : EditorState,
      (st.pages.map (fun p => p.id)).Nodup →
      (∀ op ∈ ops, ∃ p ∈ st.pages, p.id = op.pageId) →
      st.undoStack.length + ops.length ≤ 20 →
      opUndo^[ops.length] (applySnapOps st ops) = st := by
  induction ops with
  | nil =>
    intro st _ _ _
    rfl
  | cons op ops ih =>
    intro st hnodup hex hcap
    obtain ⟨p, hp, hpid⟩ := hex op (List.mem_cons_self op ops)
    have hsome : (st.pages.find? (fun q => q.id == op.pageId)).isSome :=
      List.find?_isSome.mpr ⟨p, hp, by simp [hpid]⟩
    obtain ⟨page, hpage⟩ := Option.isSome_iff_exists.mp hsome
    have hpage : findPage st.pages op.pageId = some page := hpage
    have hstack_len : st.undoStack.length ≤ 19 := by
      simp only [List.length_cons] at hcap
      omega
    obtain ⟨newChs, hst'⟩ : ∃ chs, applySnapOp st op =
        ⟨updatePageChanges st.pages op.pageId chs,
          st.undoStack ++ [⟨op.pageId, page.changes⟩]⟩ := by
      cases op with
      | resize pid cid loc =>
        refine ⟨commitResize page.changes cid loc, ?_⟩
        simp only [SnapOp.pageId] at hpage ⊢
        simp only [applySnapOp, opResizeCommit, hpage]
        rw [pushUndo_of_le _ _ hstack_len]
      | deleteKey pid cid =>
        refine ⟨page.changes.filter (fun c => !(c.id == cid)), ?_⟩
        simp only [SnapOp.pageId] at hpage ⊢
        simp only [applySnapOp, opDeleteKey, hpage]
        rw [pushUndo_of_le _ _ hstack_len]
    have hids : (applySnapOp st op).pages.map (fun p => p.id) =
        st.pages.map (fun p => p.id) := by
      rw [hst']
      exact updatePageChanges_ids _ _ _
    have hnodup1 : ((applySnapOp st op).pages.map (fun p => p.id)).Nodup :=
      hids ▸ hnodup
    have hex1 : ∀ o ∈ ops, ∃ q ∈ (applySnapOp st op).pages, q.id = o.pageId := by
      intro o ho
      obtain ⟨q, hq, hqid⟩ := hex o (List.mem_cons_of_mem _ ho)
      have hmem : o.pageId ∈ (applySnapOp st op).pages.map (fun p => p.id) := by
        rw [hids]
        exact hqid ▸ List.mem_map_of_mem _ hq
      obtain ⟨q', hq', hq'id⟩ := List.mem_map.mp hmem
      exact ⟨q', hq', hq'id⟩
    have hcap1 : (applySnapOp st op).undoStack.length + ops.length ≤ 20 := by
      rw [hst']
      simp only [List.length_append, List.length_singleton]
      simp only [List.length_cons] at hcap
      omega
    have hIH := ih (applySnapOp st op) hnodup1 hex1 hcap1
    show opUndo^[ops.length + 1] (applySnapOps st (op :: ops)) = st
    rw [Function.iterate_succ_apply']
    have hsteps : applySnapOps st (op :: ops) =
        applySnapOps (applySnapOp st op) ops := rfl
    rw [hsteps, hIH, hst', opUndo_concat,
      updatePageChanges_restore st.pages op.pageId page newChs hpage hnodup]

/-- Witness for the amended C4 theorem at a concrete input. -/
theorem undo_restores_witness :
    (((⟨[⟨"p1", [⟨"c1", .add, ["Wall"], none, none, none, none,
        ⟨0, 0, 20, 20⟩, false⟩]⟩], []⟩ : EditorState).pages.map
          (fun p => p.id)).Nodup) ∧
    (∀ op ∈ [SnapOp.deleteKey "p1" "c1"],
      ∃ p ∈ (⟨[⟨"p1", [⟨"c1", .add, ["Wall"], none, none, none, none,
        ⟨0, 0, 20, 20⟩, false⟩]⟩], []⟩ : EditorState).pages,
        p.id = op.pageId) ∧
    ((⟨[⟨"p1", [⟨"c1", .add, ["Wall"], none, none, none, none,
        ⟨0, 0, 20, 20⟩, false⟩]⟩], []⟩ : EditorState).undoStack.length +
      [SnapOp.deleteKey "p1" "c1"].length ≤ 20) ∧
    opUndo^[[SnapOp.deleteKey "p1" "c1"].length]
        (applySnapOps
          ⟨[⟨"p1", [⟨"c1", .add, ["Wall"], none, none, none, none,
            ⟨0, 0, 20, 20⟩, false⟩]⟩], []⟩
          [SnapOp.deleteKey "p1" "c1"]) =
      ⟨[⟨"p1", [⟨"c1", .add, ["Wall"], none, none, none, none,
        ⟨0, 0, 20, 20⟩, false⟩]⟩], []⟩ :=
  ⟨by simp, by simp [SnapOp.pageId], by simp,
    undo_restores [SnapOp.deleteKey "p1" "c1"]
      ⟨[⟨"p1", [⟨"c1", .add, ["Wall"], none, none, none, none,
        ⟨0, 0, 20, 20⟩, false⟩]⟩], []⟩
      (by simp) (by simp [SnapOp.pageId]) (by simp)⟩

end ReviewApp
